import Mathlib

/-!
Verification of `warehouse/admin/views/projects.py`: admin-facing listing and
detail handlers for a package registry (project listing, project detail,
release listing, journal listing).

The relational data accessed through the ORM is modelled as lists of rows; an
ORM query is modelled as filter / sort / slice on those lists.  Strings are
compared by code point (the model of the database collation and of Python
string comparison), and case folding is ASCII `toLower` (the model of
`ILIKE` case insensitivity and of `str.lower`).
-/

/-! ## Data model (section 3 of the design: external entities) -/

/-- A registry project: `Project(name, normalized_name)`. -/
structure Project where
  name : String
  normalized_name : String
deriving DecidableEq, Repr

/-- An account: `User(username)`. -/
structure User where
  username : String
deriving DecidableEq, Repr

/-- A maintainer/owner assignment: `Role(project, user, role_name)`.
The `User` join is modelled by embedding the user row. -/
structure Role where
  project : Project
  user : User
  role_name : String
deriving DecidableEq, Repr

/-- A release row: `Release(project, version, _pypi_ordering)`.
The internal ordering key is modelled as an integer. -/
structure Release where
  project : Project
  version : String
  _pypi_ordering : Int
deriving DecidableEq, Repr

/-- An audit-log row: `JournalEntry(name, version, submitted_date)`.
The submission timestamp is modelled as an integer. -/
structure JournalEntry where
  name : String
  version : String
  submitted_date : Int
deriving DecidableEq, Repr

/-- The request-scoped database session `request.db`: one table per entity. -/
structure DB where
  projects : List Project
  releases : List Release
  roles : List Role
  journals : List JournalEntry

/-- The parts of the pyramid `request` the handlers read: the `q` and `page`
query parameters (`request.params.get` yields `none` when absent), the
`project_name` path segment from `request.matchdict`, and
`request.current_route_path(project_name=...)` as a function from the
substituted segment to the resulting path. -/
structure Request where
  q : Option String := none
  page : Option String := none
  project_name : String := ""
  current_route_path : String → String := id

/-- The exceptions a handler can raise: `HTTPBadRequest(msg)`,
`HTTPMovedPermanently(location)`, and an uncaught Python `ValueError(msg)`
(escaping from `shlex.split`). -/
inductive HandlerError where
  | badRequest (msg : String) : HandlerError
  | movedPermanently (location : String) : HandlerError
  | valueError (msg : String) : HandlerError
deriving DecidableEq, Repr

/-- A `SqlalchemyOrmPage`: the sliced items plus the (clamped) page number and
the page capacity. -/
structure Page (α : Type) where
  items : List α
  page : Int
  items_per_page : Nat
deriving DecidableEq, Repr

/-! ## Python `int()` parsing

`int(request.params.get("page", 1))`: when the parameter is absent the
default `1` is already an `int`; when present, `int(str)` strips surrounding
whitespace, allows one optional sign, then digits with single underscores
permitted only between digits. -/

/-- Digits continuing a digit group: an underscore must be followed by a
digit, and the group may not end in an underscore. -/
def pyDigitsCore : List Char → Option (List Char)
  | [] => some []
  | c :: rest =>
    if c = '_' then
      match rest with
      | [] => none
      | d :: rest2 => if d.isDigit then (pyDigitsCore rest2).map (fun l => d :: l) else none
    else if c.isDigit then (pyDigitsCore rest).map (fun l => c :: l) else none

/-- Numeric value of a list of decimal digit characters. -/
def digitsToNat (l : List Char) : Nat :=
  l.foldl (fun acc c => acc * 10 + (c.toNat - 48)) 0

/-- `int(s)` for a Python `str`: `some` the parsed integer, `none` when the
call raises `ValueError`. -/
def pyIntParse (s : String) : Option Int :=
  let cs := s.data.dropWhile Char.isWhitespace
  let cs := (cs.reverse.dropWhile Char.isWhitespace).reverse
  match cs with
  | [] => none
  | c :: rest =>
    let signDigits : Int × List Char :=
      if c = '+' then (1, rest) else if c = '-' then (-1, rest) else (1, cs)
    match signDigits.2 with
    | [] => none
    | d :: ds =>
      if d.isDigit then
        match pyDigitsCore ds with
        | none => none
        | some more => some (signDigits.1 * (digitsToNat (d :: more) : Int))
      else none

/-- `int(request.params.get("page", 1))`: `none` models the `ValueError`
caught and turned into `HTTPBadRequest`. -/
def getPageNum : Option String → Option Int
  | none => some 1
  | some s => pyIntParse s

/-! ## `shlex.split` (POSIX mode, whitespace splitting, no comments) -/

/-- The apostrophe character (single quote). -/
def squote : Char := Char.ofNat 39

/-- `shlex.whitespace`: the token separators. -/
def shWhitespace (c : Char) : Bool :=
  c = ' ' || c = '\t' || c = '\r' || c = '\n'

/-- Lexer state of `shlex.read_token`: between tokens, inside a word, inside
single quotes, inside double quotes, after a backslash outside quotes, after
a backslash inside double quotes. -/
inductive ShMode where
  | space
  | word
  | sq
  | dq
  | escWord
  | escDq
deriving DecidableEq, Repr

/-- One pass of the `shlex` lexer.  `quoted` records whether the token in
progress contains a quoted section (an empty quoted token is still emitted);
`tok` is the token in progress (reversed); `acc` holds the finished tokens
(reversed).  Errors are the two `ValueError`s `shlex` raises. -/
def shlexCore : ShMode → Bool → List Char → List String → List Char →
    Except String (List String)
  | .space, _, _, acc, [] => .ok acc.reverse
  | .space, quoted, tok, acc, c :: rest =>
    if shWhitespace c then shlexCore .space quoted tok acc rest
    else if c = '\\' then shlexCore .escWord quoted tok acc rest
    else if c = squote then shlexCore .sq true tok acc rest
    else if c = '"' then shlexCore .dq true tok acc rest
    else shlexCore .word quoted (c :: tok) acc rest
  | .word, quoted, tok, acc, [] =>
    .ok ((if tok.isEmpty && !quoted then acc else String.mk tok.reverse :: acc).reverse)
  | .word, quoted, tok, acc, c :: rest =>
    if shWhitespace c then
      shlexCore .space false []
        (if tok.isEmpty && !quoted then acc else String.mk tok.reverse :: acc) rest
    else if c = '\\' then shlexCore .escWord quoted tok acc rest
    else if c = squote then shlexCore .sq true tok acc rest
    else if c = '"' then shlexCore .dq true tok acc rest
    else shlexCore .word quoted (c :: tok) acc rest
  | .sq, _, _, _, [] => .error "No closing quotation"
  | .sq, quoted, tok, acc, c :: rest =>
    if c = squote then shlexCore .word quoted tok acc rest
    else shlexCore .sq quoted (c :: tok) acc rest
  | .dq, _, _, _, [] => .error "No closing quotation"
  | .dq, quoted, tok, acc, c :: rest =>
    if c = '"' then shlexCore .word quoted tok acc rest
    else if c = '\\' then shlexCore .escDq quoted tok acc rest
    else shlexCore .dq quoted (c :: tok) acc rest
  | .escWord, _, _, _, [] => .error "No escaped character"
  | .escWord, quoted, tok, acc, c :: rest => shlexCore .word quoted (c :: tok) acc rest
  | .escDq, _, _, _, [] => .error "No escaped character"
  | .escDq, quoted, tok, acc, c :: rest =>
    if c = '\\' || c = '"' then shlexCore .dq quoted (c :: tok) acc rest
    else shlexCore .dq quoted (c :: '\\' :: tok) acc rest

/-- `shlex.split(s)`: the list of tokens, or the message of the `ValueError`
the call raises. -/
def shlexSplit (s : String) : Except String (List String) :=
  shlexCore .space false [] [] s.data

/-! ## SQL `LIKE` / `ILIKE` pattern matching

`column.ilike(pattern)` is a case-insensitive `LIKE`: `%` matches any
sequence, `_` matches one character, a backslash (the default escape)
makes the next pattern character literal, everything else is literal.
No wildcards are added around the argument. -/

/-- `LIKE` matching of a string against a pattern, both as char lists,
with a fuel argument for structural recursion: every recursive call
shrinks `pattern.length + s.length`, so any fuel above that bound gives
the fixed point. -/
def likeMatchF : Nat → List Char → List Char → Bool
  | 0, _, _ => false
  | _ + 1, [], [] => true
  | _ + 1, [], _ :: _ => false
  | f + 1, '%' :: ps, s =>
    likeMatchF f ps s ||
      (match s with
       | [] => false
       | _ :: s2 => likeMatchF f ('%' :: ps) s2)
  | f + 1, '_' :: ps, s =>
    (match s with
     | [] => false
     | _ :: s2 => likeMatchF f ps s2)
  | f + 1, '\\' :: p :: ps, s =>
    (match s with
     | [] => false
     | c :: s2 => c = p && likeMatchF f ps s2)
  | _ + 1, ['\\'], _ => false
  | f + 1, p :: ps, s =>
    (match s with
     | [] => false
     | c :: s2 => c = p && likeMatchF f ps s2)

/-- `LIKE` matching of a string against a pattern, both as char lists. -/
def likeMatch (pattern s : List Char) : Bool :=
  likeMatchF (pattern.length + s.length + 1) pattern s

/-- ASCII case folding of a char list (`str.lower` / `ILIKE` folding). -/
def lowerChars (l : List Char) : List Char := l.map Char.toLower

/-- `value.ilike(pattern)`: case-insensitive `LIKE` via case folding. -/
def ilike (value pattern : String) : Bool :=
  likeMatch (lowerChars pattern.data) (lowerChars value.data)

/-- `needle` occurs contiguously in `hay`. -/
def listInfixOf (needle : List Char) : List Char → Bool
  | [] => needle.isEmpty
  | c :: rest => needle.isPrefixOf (c :: rest) || listInfixOf needle rest

/-- Case-insensitive substring containment (the spec wording for the
search semantics): `needle` occurs contiguously in `hay`, case folded. -/
def ciSubstring (needle hay : String) : Bool :=
  listInfixOf (lowerChars needle.data) (lowerChars hay.data)

/-! ## Pagination (`paginate.Page` via `SqlalchemyOrmPage`)

`Page(collection, page, items_per_page)`: for a non-empty collection the
page number is clamped into `[1, page_count]` with
`page_count = (item_count - 1) // items_per_page + 1`, and the items are
`collection[(page-1)*per : (page-1)*per + per]`. -/

/-- The paginate library's `Page` construction. -/
def paginate (l : List α) (page : Int) (per : Nat) : Page α :=
  if l.length = 0 then
    { items := [], page := page, items_per_page := per }
  else
    let page_count : Nat := (l.length - 1) / per + 1
    let p : Int :=
      if page > (page_count : Int) then (page_count : Int)
      else if page < 1 then 1 else page
    { items := (l.drop ((p - 1).toNat * per)).take per
      page := p
      items_per_page := per }

/-! ## Comparators for `ORDER BY` and `sorted`

Strings are ordered lexicographically by code point: the model of both the
database collation and of Python string comparison. -/

/-- Lexicographic code-point `≤` on char lists. -/
def charListLe : List Char → List Char → Bool
  | [], _ => true
  | _ :: _, [] => false
  | a :: as, b :: bs => if a = b then charListLe as bs else decide (a < b)

/-- Lexicographic `≤` on strings. -/
def strLe (a b : String) : Bool := charListLe a.data b.data

/-- Python tuple `≤` on pairs of strings: lexicographic. -/
def lexLe (p q : String × String) : Bool :=
  if p.1 = q.1 then strLe p.2 q.2 else strLe p.1 q.1

/-- Python tuple comparison on the `(role_name, username)` sort key of
`sorted(maintainers, key=lambda x: (x.role_name, x.user.username))`. -/
def roleKeyLe (a b : Role) : Bool :=
  lexLe (a.role_name, a.user.username) (b.role_name, b.user.username)

/-- Descending comparison on integer keys (`ORDER BY ... DESC`). -/
def intGe (a b : Int) : Bool := decide (b ≤ a)

/-- `ORDER BY projects.name` ascending. -/
def projectNameLe (a b : Project) : Bool := strLe a.name b.name

/-- `ORDER BY releases._pypi_ordering DESC`. -/
def releaseOrderGe (a b : Release) : Bool := intGe a._pypi_ordering b._pypi_ordering

/-- `ORDER BY journals.submitted_date DESC`. -/
def journalDateGe (a b : JournalEntry) : Bool := intGe a.submitted_date b.submitted_date

/-! ## A stable sort (the model of `ORDER BY` and of Python `sorted`) -/

/-- Insert into a sorted list, before the first element not below `a`. -/
def oInsert (le : α → α → Bool) (a : α) : List α → List α
  | [] => [a]
  | b :: l => if le a b then a :: b :: l else b :: oInsert le a l

/-- Stable insertion sort with a boolean comparator. -/
def sortByLe (le : α → α → Bool) : List α → List α
  | [] => []
  | a :: l => oInsert le a (sortByLe le l)

/-- Truthiness of the `q` parameter: `if q:` is false for `None` and for
the empty string. -/
def qTruthy : Option String → Bool
  | none => false
  | some s => decide (s ≠ "")

/-- PostgreSQL `DISTINCT ON (users.username)` (`.distinct(User.username)`):
one row kept per username; with no `ORDER BY` the database keeps an
unspecified representative, modelled as the first occurrence. -/
def dedupByUsername : List Role → List Role
  | [] => []
  | r :: rest =>
    r :: (dedupByUsername rest).filter (fun x => x.user.username ≠ r.user.username)

/-- `term.split(":", 1)` on char lists: the part before the first `:` and
the part after it. -/
def splitOnce (sep : Char) : List Char → List Char × List Char
  | [] => ([], [])
  | c :: rest =>
    if c = sep then ([], rest)
    else
      let p := splitOnce sep rest
      (c :: p.1, p.2)

/-- The filter-collection loop shared by `releases_list` and
`journals_list`: for each term, if it contains `:`, split at the first `:`
into field and value; a field whose lowering is `"version"` contributes the
value as an `ilike` argument, anything else contributes nothing. -/
def versionFilters (terms : List String) : List String :=
  terms.filterMap (fun term =>
    if ':' ∈ term.data then
      let fv := splitOnce ':' term.data
      if lowerChars fv.1 = "version".data then some (String.mk fv.2) else none
    else none)

/-- Decidable equality of handler results, for concrete evaluation. -/
instance instDecEqExcept {ε α : Type} [DecidableEq ε] [DecidableEq α] :
    DecidableEq (Except ε α)
  | .ok a, .ok b =>
    if h : a = b then .isTrue (by rw [h]) else .isFalse (fun hh => h (Except.ok.inj hh))
  | .ok _, .error _ => .isFalse (fun hh => Except.noConfusion hh)
  | .error _, .ok _ => .isFalse (fun hh => Except.noConfusion hh)
  | .error a, .error b =>
    if h : a = b then .isTrue (by rw [h]) else .isFalse (fun hh => h (Except.error.inj hh))

/-! ## Handler view models -/

/-- `project_list` result: `{"projects": projects, "query": q}`. -/
structure ProjectListOut where
  projects : Page Project
  query : Option String
deriving DecidableEq, Repr

/-- `project_detail` result:
`{"project": project, "maintainers": maintainers, "journal": journal}`. -/
structure ProjectDetailOut where
  project : Project
  maintainers : List Role
  journal : List JournalEntry
deriving DecidableEq, Repr

/-- `releases_list` result:
`{"releases": releases, "project": project, "query": q}`. -/
structure ReleasesListOut where
  releases : Page Release
  project : Project
  query : Option String
deriving DecidableEq, Repr

/-- `journals_list` result:
`{"journals": journals, "project": project, "query": q}`. -/
structure JournalsListOut where
  journals : Page JournalEntry
  project : Project
  query : Option String
deriving DecidableEq, Repr

/-! ## The four handlers

An SQLAlchemy query is modelled as filter / `sortByLe` / `paginate` over the
session's lists.  `or_(*filters)` with an empty filter list compiles to an
empty clause that SQLAlchemy 1.x ignores, so `query.filter(or_())` leaves the
query unfiltered; that is the `filters.isEmpty` branch. -/

/-- The `HTTPBadRequest` message for a malformed `page` parameter. -/
def pageErrMsg : String := "\x27page\x27 must be an integer."

/-- `project_list(request)`. -/
def project_list (db : DB) (request : Request) : Except HandlerError ProjectListOut :=
  let q := request.q
  match getPageNum request.page with
  | none => .error (.badRequest pageErrMsg)
  | some page_num =>
    let projects_query := sortByLe projectNameLe db.projects
    if qTruthy q then
      match shlexSplit (q.getD "") with
      | .error m => .error (.valueError m)
      | .ok terms =>
        let filters := terms
        let projects_query :=
          if filters.isEmpty then projects_query
          else projects_query.filter (fun p => filters.any (fun term => ilike p.name term))
        .ok { projects := paginate projects_query page_num 25, query := q }
    else
      .ok { projects := paginate projects_query page_num 25, query := q }

/-- `project_detail(project, request)`. -/
def project_detail (db : DB) (project : Project) (request : Request) :
    Except HandlerError ProjectDetailOut :=
  let project_name := request.project_name
  if project_name ≠ project.normalized_name then
    .error (.movedPermanently (request.current_route_path project.normalized_name))
  else
    let maintainers := dedupByUsername (db.roles.filter (fun r => r.project == project))
    let maintainers := sortByLe roleKeyLe maintainers
    let journal :=
      (sortByLe journalDateGe (db.journals.filter (fun e => e.name == project.name))).take 50
    .ok { project := project, maintainers := maintainers, journal := journal }

/-- `releases_list(project, request)`. -/
def releases_list (db : DB) (project : Project) (request : Request) :
    Except HandlerError ReleasesListOut :=
  let q := request.q
  let project_name := request.project_name
  if project_name ≠ project.normalized_name then
    .error (.movedPermanently (request.current_route_path project.normalized_name))
  else
    match getPageNum request.page with
    | none => .error (.badRequest pageErrMsg)
    | some page_num =>
      let releases_query :=
        sortByLe releaseOrderGe (db.releases.filter (fun r => r.project == project))
      if qTruthy q then
        match shlexSplit (q.getD "") with
        | .error m => .error (.valueError m)
        | .ok terms =>
          let filters := versionFilters terms
          let releases_query :=
            if filters.isEmpty then releases_query
            else releases_query.filter (fun r => filters.any (fun v => ilike r.version v))
          .ok { releases := paginate releases_query page_num 25, project := project, query := q }
      else
        .ok { releases := paginate releases_query page_num 25, project := project, query := q }

/-- `journals_list(project, request)`. -/
def journals_list (db : DB) (project : Project) (request : Request) :
    Except HandlerError JournalsListOut :=
  let q := request.q
  let project_name := request.project_name
  if project_name ≠ project.normalized_name then
    .error (.movedPermanently (request.current_route_path project.normalized_name))
  else
    match getPageNum request.page with
    | none => .error (.badRequest pageErrMsg)
    | some page_num =>
      let journals_query :=
        sortByLe journalDateGe (db.journals.filter (fun e => e.name == project.name))
      if qTruthy q then
        match shlexSplit (q.getD "") with
        | .error m => .error (.valueError m)
        | .ok terms =>
          let filters := versionFilters terms
          let journals_query :=
            if filters.isEmpty then journals_query
            else journals_query.filter (fun e => filters.any (fun v => ilike e.version v))
          .ok { journals := paginate journals_query page_num 25, project := project, query := q }
      else
        .ok { journals := paginate journals_query page_num 25, project := project, query := q }

/-! ## Concrete fixtures for counterexamples and witnesses -/

/-- A project whose canonical slug equals its name. -/
def cProj : Project := { name := "foobar", normalized_name := "foobar" }

/-- A project whose display name differs from its canonical slug. -/
def cProjMixed : Project := { name := "Foobar", normalized_name := "foobar" }

/-- A release of `cProj` whose version contains `1.0` strictly inside. -/
def cRel : Release := { project := cProj, version := "1.0.2", _pypi_ordering := 1 }

/-- A journal row of `cProj`. -/
def cJournal : JournalEntry := { name := "foobar", version := "1.0.2", submitted_date := 7 }

/-- A one-project database. -/
def cDB : DB := { projects := [cProj], releases := [cRel], roles := [], journals := [cJournal] }

/-- A request searching the project list for the pattern `f%r`. -/
def cReqPattern : Request := { q := some "f%r" }

/-- A request whose query is a lone double quote (unbalanced). -/
def cReqQuote : Request := { q := some "\"" }

/-- A canonical-path request searching releases for `version:1.0`. -/
def cReqVersion : Request := { project_name := "foobar", q := some "version:1.0" }

/-- A non-canonical-path request with a malformed `page` parameter. -/
def cReqBadPageNonCanon : Request := { project_name := "Foobar", page := some "abc" }

/-- The `project_list` output for `cDB` and `cReqPattern`. -/
def c1Out : ProjectListOut :=
  { projects := { items := [cProj], page := 1, items_per_page := 25 }, query := some "f%r" }

/-- A canonical-path request searching releases for `version:1.0.2`. -/
def cReqVersionExact : Request := { project_name := "foobar", q := some "version:1.0.2" }

/-- The `releases_list` output for `cDB` and `cReqVersionExact`. -/
def c6Out : ReleasesListOut :=
  { releases := { items := [cRel], page := 1, items_per_page := 25 }, project := cProj,
    query := some "version:1.0.2" }

/-- Two users sharing a project. -/
def wUser1 : User := { username := "bob" }

/-- A second user. -/
def wUser2 : User := { username := "alice" }

/-- `wUser1` as a maintainer of `cProj`. -/
def wRole1 : Role := { project := cProj, user := wUser1, role_name := "Maintainer" }

/-- `wUser2` as an owner of `cProj`. -/
def wRole2 : Role := { project := cProj, user := wUser2, role_name := "Owner" }

/-- A second role row for `wUser1`, to be removed by `DISTINCT ON`. -/
def wRole3 : Role := { project := cProj, user := wUser1, role_name := "Owner" }

/-- An older journal row of `cProj`. -/
def wJournalOld : JournalEntry := { name := "foobar", version := "1.0", submitted_date := 5 }

/-- A database with roles and journals for the detail page. -/
def wDB : DB :=
  { projects := [cProj], releases := [cRel], roles := [wRole1, wRole2, wRole3],
    journals := [cJournal, wJournalOld] }

/-- A canonical-path request with no query parameters. -/
def wReqCanon : Request := { project_name := "foobar" }

/-- The `project_detail` output for `wDB` and `wReqCanon`. -/
def wDetailOut : ProjectDetailOut :=
  { project := cProj, maintainers := [wRole1, wRole2], journal := [cJournal, wJournalOld] }

/-! ## Lemmas: the sort -/

/-- Membership in an insertion. -/
theorem mem_oInsert {le : α → α → Bool} {a x : α} {l : List α} :
    x ∈ oInsert le a l ↔ x = a ∨ x ∈ l := by
  induction l with
  | nil => simp [oInsert]
  | cons b l ih =>
    by_cases h : le a b = true
    · simp only [oInsert, if_pos h, List.mem_cons]
    · simp only [oInsert, if_neg h, List.mem_cons, ih]
      tauto

/-- Insertion permutes the extended list. -/
theorem oInsert_perm (le : α → α → Bool) (a : α) (l : List α) :
    (oInsert le a l).Perm (a :: l) := by
  induction l with
  | nil => simp [oInsert]
  | cons b l ih =>
    by_cases h : le a b = true
    · simp [oInsert, h]
    · simp only [oInsert, if_neg h]
      exact (ih.cons b).trans (List.Perm.swap a b l)

/-- The sort permutes the list. -/
theorem sortByLe_perm (le : α → α → Bool) (l : List α) :
    (sortByLe le l).Perm l := by
  induction l with
  | nil => simp [sortByLe]
  | cons a l ih => exact (oInsert_perm le a (sortByLe le l)).trans (ih.cons a)

/-- Inserting into a sorted list keeps it sorted, for a total transitive
comparator. -/
theorem pairwise_oInsert {le : α → α → Bool}
    (total : ∀ a b, (le a b || le b a) = true)
    (tr : ∀ a b c, le a b = true → le b c = true → le a c = true)
    {a : α} {l : List α} (h : l.Pairwise (fun x y => le x y = true)) :
    (oInsert le a l).Pairwise (fun x y => le x y = true) := by
  induction l with
  | nil => simp [oInsert]
  | cons b l ih =>
    rcases List.pairwise_cons.mp h with ⟨hb, hl⟩
    by_cases hab : le a b = true
    · simp only [oInsert, if_pos hab]
      refine List.pairwise_cons.mpr ⟨?_, h⟩
      intro x hx
      rcases List.mem_cons.mp hx with rfl | hx
      · exact hab
      · exact tr a b x hab (hb x hx)
    · simp only [oInsert, if_neg hab]
      refine List.pairwise_cons.mpr ⟨?_, ih hl⟩
      intro x hx
      rcases mem_oInsert.mp hx with h1 | hx
      · have ht := total a b
        have hf : le a b = false := by
          cases hle : le a b
          · rfl
          · exact absurd hle hab
        rw [hf, Bool.false_or] at ht
        rw [h1]
        exact ht
      · exact hb x hx

/-- The sort sorts, for a total transitive comparator. -/
theorem pairwise_sortByLe (le : α → α → Bool)
    (total : ∀ a b, (le a b || le b a) = true)
    (tr : ∀ a b c, le a b = true → le b c = true → le a c = true)
    (l : List α) :
    (sortByLe le l).Pairwise (fun x y => le x y = true) := by
  induction l with
  | nil => simp [sortByLe]
  | cons a l ih => exact pairwise_oInsert total tr ih

/-! ## Lemmas: the comparators -/

/-- `charListLe` is total. -/
theorem charListLe_total : ∀ x y : List Char, (charListLe x y || charListLe y x) = true
  | [], _ => by simp [charListLe]
  | _ :: _, [] => by simp [charListLe]
  | a :: as, b :: bs => by
    by_cases hab : a = b
    · subst hab
      simp only [charListLe, if_pos rfl]
      exact charListLe_total as bs
    · have hba : ¬ b = a := fun h => hab h.symm
      simp only [charListLe, if_neg hab, if_neg hba]
      rcases lt_trichotomy a b with h | h | h
      · simp [h]
      · exact absurd h hab
      · simp [h]

/-- `charListLe` is transitive. -/
theorem charListLe_trans : ∀ x y z : List Char,
    charListLe x y = true → charListLe y z = true → charListLe x z = true
  | [], _, _, _, _ => by simp [charListLe]
  | a :: as, [], _, h1, _ => by simp [charListLe] at h1
  | _ :: _, _ :: _, [], _, h2 => by simp [charListLe] at h2
  | a :: as, b :: bs, c :: cs, h1, h2 => by
    by_cases hab : a = b <;> by_cases hbc : b = c
    · subst hab; subst hbc
      simp only [charListLe, if_pos rfl] at h1 h2 ⊢
      exact charListLe_trans as bs cs h1 h2
    · subst hab
      simp only [charListLe, if_pos rfl, if_neg hbc, decide_eq_true_eq] at h2 ⊢
      exact h2
    · subst hbc
      simp only [charListLe, if_neg hab, decide_eq_true_eq] at h1 ⊢
      exact h1
    · simp only [charListLe, if_neg hab, if_neg hbc, decide_eq_true_eq] at h1 h2
      have hac : a < c := lt_trans h1 h2
      simp only [charListLe, if_neg (ne_of_lt hac), decide_eq_true_eq]
      exact hac

/-- `charListLe` is antisymmetric. -/
theorem charListLe_antisymm : ∀ x y : List Char,
    charListLe x y = true → charListLe y x = true → x = y
  | [], [], _, _ => rfl
  | [], _ :: _, _, h2 => by simp [charListLe] at h2
  | _ :: _, [], h1, _ => by simp [charListLe] at h1
  | a :: as, b :: bs, h1, h2 => by
    by_cases hab : a = b
    · subst hab
      simp only [charListLe, if_pos rfl] at h1 h2
      rw [charListLe_antisymm as bs h1 h2]
    · have hba : ¬ b = a := fun h => hab h.symm
      simp only [charListLe, if_neg hab, if_neg hba, decide_eq_true_eq] at h1 h2
      exact absurd h2 (not_lt_of_gt h1)

/-- `strLe` is total. -/
theorem strLe_total (a b : String) : (strLe a b || strLe b a) = true :=
  charListLe_total a.data b.data

/-- `strLe` is transitive. -/
theorem strLe_trans {a b c : String} (h1 : strLe a b = true) (h2 : strLe b c = true) :
    strLe a c = true :=
  charListLe_trans a.data b.data c.data h1 h2

/-- `strLe` is antisymmetric. -/
theorem strLe_antisymm {a b : String} (h1 : strLe a b = true) (h2 : strLe b a = true) :
    a = b := by
  have h := charListLe_antisymm a.data b.data h1 h2
  cases a
  cases b
  exact congrArg String.mk h

/-- `lexLe` is total. -/
theorem lexLe_total (p q : String × String) : (lexLe p q || lexLe q p) = true := by
  obtain ⟨p1, p2⟩ := p
  obtain ⟨q1, q2⟩ := q
  by_cases h : p1 = q1
  · subst h
    simp only [lexLe, if_pos rfl]
    exact strLe_total p2 q2
  · have h2 : ¬ q1 = p1 := fun hh => h hh.symm
    simp only [lexLe, if_neg h, if_neg h2]
    exact strLe_total p1 q1

/-- `lexLe` is transitive. -/
theorem lexLe_trans {p q r : String × String}
    (h1 : lexLe p q = true) (h2 : lexLe q r = true) : lexLe p r = true := by
  obtain ⟨p1, p2⟩ := p
  obtain ⟨q1, q2⟩ := q
  obtain ⟨r1, r2⟩ := r
  by_cases hpq : p1 = q1 <;> by_cases hqr : q1 = r1
  · subst hpq; subst hqr
    simp only [lexLe, if_pos rfl] at h1 h2 ⊢
    exact strLe_trans h1 h2
  · subst hpq
    simp only [lexLe, if_pos rfl, if_neg hqr] at h2 ⊢
    exact h2
  · subst hqr
    simp only [lexLe, if_neg hpq] at h1 ⊢
    exact h1
  · simp only [lexLe, if_neg hpq, if_neg hqr] at h1 h2
    have hpr : ¬ p1 = r1 := by
      intro hh
      subst hh
      exact hpq (strLe_antisymm h1 h2)
    simp only [lexLe, if_neg hpr]
    exact strLe_trans h1 h2

/-- `roleKeyLe` is total. -/
theorem roleKeyLe_total (a b : Role) : (roleKeyLe a b || roleKeyLe b a) = true :=
  lexLe_total _ _

/-- `roleKeyLe` is transitive. -/
theorem roleKeyLe_trans (a b c : Role)
    (h1 : roleKeyLe a b = true) (h2 : roleKeyLe b c = true) : roleKeyLe a c = true :=
  lexLe_trans h1 h2

/-- `intGe` is total. -/
theorem intGe_total (a b : Int) : (intGe a b || intGe b a) = true := by
  simp only [intGe, Bool.or_eq_true, decide_eq_true_eq]
  omega

/-- `intGe` is transitive. -/
theorem intGe_trans (a b c : Int) (h1 : intGe a b = true) (h2 : intGe b c = true) :
    intGe a c = true := by
  simp only [intGe, decide_eq_true_eq] at h1 h2 ⊢
  omega

/-- `projectNameLe` is total. -/
theorem projectNameLe_total (a b : Project) : (projectNameLe a b || projectNameLe b a) = true :=
  strLe_total a.name b.name

/-- `projectNameLe` is transitive. -/
theorem projectNameLe_trans (a b c : Project)
    (h1 : projectNameLe a b = true) (h2 : projectNameLe b c = true) :
    projectNameLe a c = true :=
  strLe_trans h1 h2

/-- `releaseOrderGe` is total. -/
theorem releaseOrderGe_total (a b : Release) : (releaseOrderGe a b || releaseOrderGe b a) = true :=
  intGe_total _ _

/-- `releaseOrderGe` is transitive. -/
theorem releaseOrderGe_trans (a b c : Release)
    (h1 : releaseOrderGe a b = true) (h2 : releaseOrderGe b c = true) :
    releaseOrderGe a c = true :=
  intGe_trans _ _ _ h1 h2

/-- `journalDateGe` is total. -/
theorem journalDateGe_total (a b : JournalEntry) : (journalDateGe a b || journalDateGe b a) = true :=
  intGe_total _ _

/-- `journalDateGe` is transitive. -/
theorem journalDateGe_trans (a b c : JournalEntry)
    (h1 : journalDateGe a b = true) (h2 : journalDateGe b c = true) :
    journalDateGe a c = true :=
  intGe_trans _ _ _ h1 h2

/-! ## Lemmas: pagination -/

/-- A page's items form a sublist of the paginated collection. -/
theorem paginate_items_sublist (l : List α) (p : Int) (per : Nat) :
    (paginate l p per).items.Sublist l := by
  unfold paginate
  split
  · simp
  · exact (List.take_sublist _ _).trans (List.drop_sublist _ _)

/-- A page's items belong to the paginated collection. -/
theorem paginate_items_subset (l : List α) (p : Int) (per : Nat) :
    ∀ x ∈ (paginate l p per).items, x ∈ l :=
  fun _ hx => (paginate_items_sublist l p per).mem hx

/-- A page records its capacity. -/
theorem paginate_items_per_page (l : List α) (p : Int) (per : Nat) :
    (paginate l p per).items_per_page = per := by
  unfold paginate
  split <;> rfl

/-- A page holds at most its capacity. -/
theorem paginate_length_le (l : List α) (p : Int) (per : Nat) :
    (paginate l p per).items.length ≤ per := by
  unfold paginate
  split
  · simp
  · simp only [List.length_take]
    exact min_le_left _ _

/-! ## Lemmas: `DISTINCT ON` -/

/-- After deduplication no username repeats. -/
theorem nodup_dedupByUsername (l : List Role) :
    ((dedupByUsername l).map (fun r => r.user.username)).Nodup := by
  induction l with
  | nil => simp [dedupByUsername]
  | cons r rest ih =>
    simp only [dedupByUsername, List.map_cons]
    rw [List.nodup_cons]
    constructor
    · intro hmem
      rcases List.mem_map.mp hmem with ⟨y, hy, hname⟩
      have hpred := (List.mem_filter.mp hy).2
      simp only [decide_eq_true_eq] at hpred
      exact hpred hname
    · exact List.Nodup.sublist ((List.filter_sublist _).map _) ih

/-- Sorting preserves the absence of duplicates under a projection. -/
theorem nodup_map_sortByLe (le : α → α → Bool) (f : α → β) (l : List α)
    (h : (l.map f).Nodup) : ((sortByLe le l).map f).Nodup :=
  (((sortByLe_perm le l).map f).symm.nodup) h

/-! ## Lemmas: handler inversion -/

/-- A boolean that is not true is false. -/
theorem bool_not_true {b : Bool} (h : ¬ b = true) : b = false := by
  cases b
  · rfl
  · exact absurd rfl h

/-- What a successful `project_detail` returns. -/
theorem project_detail_ok_inv (db : DB) (project : Project) (request : Request)
    (out : ProjectDetailOut) (h : project_detail db project request = .ok out) :
    out.project = project ∧
    out.maintainers = sortByLe roleKeyLe
      (dedupByUsername (db.roles.filter (fun r => r.project == project))) ∧
    out.journal = (sortByLe journalDateGe
      (db.journals.filter (fun e => e.name == project.name))).take 50 := by
  simp only [project_detail] at h
  split at h
  · simp at h
  · injection h with h
    subst h
    exact ⟨rfl, rfl, rfl⟩

/-- The only error `project_detail` raises is the canonical redirect. -/
theorem project_detail_error_inv (db : DB) (project : Project) (request : Request)
    (e : HandlerError) (h : project_detail db project request = .error e) :
    e = .movedPermanently (request.current_route_path project.normalized_name) ∧
    request.project_name ≠ project.normalized_name := by
  simp only [project_detail] at h
  split at h
  · rename_i hne
    injection h with h
    exact ⟨h.symm, hne⟩
  · simp at h

/-- What a successful `project_list` returns. -/
theorem project_list_ok_inv (db : DB) (request : Request) (out : ProjectListOut)
    (h : project_list db request = .ok out) :
    ∃ page_num, getPageNum request.page = some page_num ∧
      out.query = request.q ∧
      ((qTruthy request.q = false ∧
          out.projects = paginate (sortByLe projectNameLe db.projects) page_num 25) ∨
       (∃ terms, qTruthy request.q = true ∧
          shlexSplit (request.q.getD "") = .ok terms ∧
          out.projects = paginate
            (if terms.isEmpty then sortByLe projectNameLe db.projects
             else (sortByLe projectNameLe db.projects).filter
               (fun p => terms.any (fun term => ilike p.name term))) page_num 25)) := by
  simp only [project_list] at h
  split at h
  · simp at h
  · rename_i page_num hpage
    refine ⟨page_num, hpage, ?_⟩
    split at h
    · rename_i hq
      split at h
      · simp at h
      · rename_i terms hterms
        injection h with h
        subst h
        exact ⟨rfl, Or.inr ⟨terms, hq, hterms, rfl⟩⟩
    · rename_i hq
      injection h with h
      subst h
      exact ⟨rfl, Or.inl ⟨bool_not_true hq, rfl⟩⟩

/-- The errors `project_list` raises. -/
theorem project_list_error_inv (db : DB) (request : Request) (e : HandlerError)
    (h : project_list db request = .error e) :
    (e = .badRequest pageErrMsg ∧ getPageNum request.page = none) ∨
    (∃ m, e = .valueError m ∧ qTruthy request.q = true ∧
      shlexSplit (request.q.getD "") = .error m) := by
  simp only [project_list] at h
  split at h
  · rename_i hpage
    injection h with h
    exact Or.inl ⟨h.symm, hpage⟩
  · rename_i page_num hpage
    split at h
    · rename_i hq
      split at h
      · rename_i m hm
        injection h with h
        exact Or.inr ⟨m, h.symm, hq, hm⟩
      · simp at h
    · simp at h

/-- What a successful `releases_list` returns. -/
theorem releases_list_ok_inv (db : DB) (project : Project) (request : Request)
    (out : ReleasesListOut) (h : releases_list db project request = .ok out) :
    request.project_name = project.normalized_name ∧
    out.project = project ∧ out.query = request.q ∧
    ∃ page_num, getPageNum request.page = some page_num ∧
      ((qTruthy request.q = false ∧
          out.releases = paginate (sortByLe releaseOrderGe
            (db.releases.filter (fun r => r.project == project))) page_num 25) ∨
       (∃ terms, qTruthy request.q = true ∧
          shlexSplit (request.q.getD "") = .ok terms ∧
          out.releases = paginate
            (if (versionFilters terms).isEmpty then
               sortByLe releaseOrderGe (db.releases.filter (fun r => r.project == project))
             else (sortByLe releaseOrderGe
                 (db.releases.filter (fun r => r.project == project))).filter
               (fun r => (versionFilters terms).any (fun v => ilike r.version v)))
            page_num 25)) := by
  simp only [releases_list] at h
  split at h
  · simp at h
  · rename_i hne
    refine ⟨not_not.mp hne, ?_⟩
    split at h
    · simp at h
    · rename_i page_num hpage
      split at h
      · rename_i hq
        split at h
        · simp at h
        · rename_i terms hterms
          injection h with h
          subst h
          exact ⟨rfl, rfl, page_num, hpage, Or.inr ⟨terms, hq, hterms, rfl⟩⟩
      · rename_i hq
        injection h with h
        subst h
        exact ⟨rfl, rfl, page_num, hpage, Or.inl ⟨bool_not_true hq, rfl⟩⟩

/-- The errors `releases_list` raises. -/
theorem releases_list_error_inv (db : DB) (project : Project) (request : Request)
    (e : HandlerError) (h : releases_list db project request = .error e) :
    (e = .movedPermanently (request.current_route_path project.normalized_name) ∧
       request.project_name ≠ project.normalized_name) ∨
    (e = .badRequest pageErrMsg ∧ getPageNum request.page = none) ∨
    (∃ m, e = .valueError m ∧ qTruthy request.q = true ∧
      shlexSplit (request.q.getD "") = .error m) := by
  simp only [releases_list] at h
  split at h
  · rename_i hne
    injection h with h
    exact Or.inl ⟨h.symm, hne⟩
  · split at h
    · rename_i hpage
      injection h with h
      exact Or.inr (Or.inl ⟨h.symm, hpage⟩)
    · rename_i page_num hpage
      split at h
      · rename_i hq
        split at h
        · rename_i m hm
          injection h with h
          exact Or.inr (Or.inr ⟨m, h.symm, hq, hm⟩)
        · simp at h
      · simp at h

/-- What a successful `journals_list` returns. -/
theorem journals_list_ok_inv (db : DB) (project : Project) (request : Request)
    (out : JournalsListOut) (h : journals_list db project request = .ok out) :
    request.project_name = project.normalized_name ∧
    out.project = project ∧ out.query = request.q ∧
    ∃ page_num, getPageNum request.page = some page_num ∧
      ((qTruthy request.q = false ∧
          out.journals = paginate (sortByLe journalDateGe
            (db.journals.filter (fun e => e.name == project.name))) page_num 25) ∨
       (∃ terms, qTruthy request.q = true ∧
          shlexSplit (request.q.getD "") = .ok terms ∧
          out.journals = paginate
            (if (versionFilters terms).isEmpty then
               sortByLe journalDateGe (db.journals.filter (fun e => e.name == project.name))
             else (sortByLe journalDateGe
                 (db.journals.filter (fun e => e.name == project.name))).filter
               (fun e => (versionFilters terms).any (fun v => ilike e.version v)))
            page_num 25)) := by
  simp only [journals_list] at h
  split at h
  · simp at h
  · rename_i hne
    refine ⟨not_not.mp hne, ?_⟩
    split at h
    · simp at h
    · rename_i page_num hpage
      split at h
      · rename_i hq
        split at h
        · simp at h
        · rename_i terms hterms
          injection h with h
          subst h
          exact ⟨rfl, rfl, page_num, hpage, Or.inr ⟨terms, hq, hterms, rfl⟩⟩
      · rename_i hq
        injection h with h
        subst h
        exact ⟨rfl, rfl, page_num, hpage, Or.inl ⟨bool_not_true hq, rfl⟩⟩

/-- The errors `journals_list` raises. -/
theorem journals_list_error_inv (db : DB) (project : Project) (request : Request)
    (e : HandlerError) (h : journals_list db project request = .error e) :
    (e = .movedPermanently (request.current_route_path project.normalized_name) ∧
       request.project_name ≠ project.normalized_name) ∨
    (e = .badRequest pageErrMsg ∧ getPageNum request.page = none) ∨
    (∃ m, e = .valueError m ∧ qTruthy request.q = true ∧
      shlexSplit (request.q.getD "") = .error m) := by
  simp only [journals_list] at h
  split at h
  · rename_i hne
    injection h with h
    exact Or.inl ⟨h.symm, hne⟩
  · split at h
    · rename_i hpage
      injection h with h
      exact Or.inr (Or.inl ⟨h.symm, hpage⟩)
    · rename_i page_num hpage
      split at h
      · rename_i hq
        split at h
        · rename_i m hm
          injection h with h
          exact Or.inr (Or.inr ⟨m, h.symm, hq, hm⟩)
        · simp at h
      · simp at h

/-- A non-canonical path makes `project_detail` redirect. -/
theorem project_detail_redirect (db : DB) (project : Project) (request : Request)
    (hne : request.project_name ≠ project.normalized_name) :
    project_detail db project request =
      .error (.movedPermanently (request.current_route_path project.normalized_name)) := by
  simp only [project_detail, if_pos hne]

/-- A non-canonical path makes `releases_list` redirect. -/
theorem releases_list_redirect (db : DB) (project : Project) (request : Request)
    (hne : request.project_name ≠ project.normalized_name) :
    releases_list db project request =
      .error (.movedPermanently (request.current_route_path project.normalized_name)) := by
  simp only [releases_list, if_pos hne]

/-- A non-canonical path makes `journals_list` redirect. -/
theorem journals_list_redirect (db : DB) (project : Project) (request : Request)
    (hne : request.project_name ≠ project.normalized_name) :
    journals_list db project request =
      .error (.movedPermanently (request.current_route_path project.normalized_name)) := by
  simp only [journals_list, if_pos hne]

/-- A malformed `page` makes `project_list` fail with the bad request. -/
theorem project_list_badRequest (db : DB) (request : Request)
    (hpage : getPageNum request.page = none) :
    project_list db request = .error (.badRequest pageErrMsg) := by
  simp only [project_list, hpage]

/-- A malformed `page` on a canonical path makes `releases_list` fail with
the bad request. -/
theorem releases_list_badRequest (db : DB) (project : Project) (request : Request)
    (hcanon : request.project_name = project.normalized_name)
    (hpage : getPageNum request.page = none) :
    releases_list db project request = .error (.badRequest pageErrMsg) := by
  simp only [releases_list, hpage, if_neg (not_not.mpr hcanon)]

/-- A malformed `page` on a canonical path makes `journals_list` fail with
the bad request. -/
theorem journals_list_badRequest (db : DB) (project : Project) (request : Request)
    (hcanon : request.project_name = project.normalized_name)
    (hpage : getPageNum request.page = none) :
    journals_list db project request = .error (.badRequest pageErrMsg) := by
  simp only [journals_list, hpage, if_neg (not_not.mpr hcanon)]

/-! ## The claims -/

/-- **C4.** For every canonical request to `project_detail`, the returned
maintainers list is sorted ascending by the `(role name, username)` pair and
contains no two entries with the same username. -/
theorem claim_C4 (db : DB) (project : Project) (request : Request)
    (out : ProjectDetailOut) (h : project_detail db project request = .ok out) :
    out.maintainers.Pairwise (fun a b => roleKeyLe a b = true) ∧
    (out.maintainers.map (fun r => r.user.username)).Nodup := by
  obtain ⟨-, hm, -⟩ := project_detail_ok_inv db project request out h
  rw [hm]
  exact ⟨pairwise_sortByLe roleKeyLe roleKeyLe_total roleKeyLe_trans _,
    nodup_map_sortByLe _ _ _ (nodup_dedupByUsername _)⟩

/-- **C4, witness.** The claim instantiated on a concrete database. -/
theorem claim_C4_witness :
    project_detail wDB cProj wReqCanon = .ok wDetailOut ∧
    wDetailOut.maintainers.Pairwise (fun a b => roleKeyLe a b = true) ∧
    (wDetailOut.maintainers.map (fun r => r.user.username)).Nodup :=
  ⟨by decide, claim_C4 wDB cProj wReqCanon wDetailOut (by decide)⟩

/-- **C5.** For every canonical request to `project_detail`, the returned
journal list has at most 50 entries, every entry's name equals the project's
name, and entries are ordered by submission date descending. -/
theorem claim_C5 (db : DB) (project : Project) (request : Request)
    (out : ProjectDetailOut) (h : project_detail db project request = .ok out) :
    out.journal.length ≤ 50 ∧
    (∀ e ∈ out.journal, e.name = project.name) ∧
    out.journal.Pairwise (fun a b => b.submitted_date ≤ a.submitted_date) := by
  obtain ⟨-, -, hj⟩ := project_detail_ok_inv db project request out h
  rw [hj]
  refine ⟨?_, ?_, ?_⟩
  · rw [List.length_take]
    exact min_le_left _ _
  · intro e he
    have he2 := (sortByLe_perm journalDateGe _).mem_iff.mp (List.take_subset _ _ he)
    exact eq_of_beq (List.mem_filter.mp he2).2
  · have hpw := pairwise_sortByLe journalDateGe journalDateGe_total journalDateGe_trans
      (db.journals.filter (fun e => e.name == project.name))
    have hpw2 := hpw.imp (fun hab => by
      simpa only [journalDateGe, intGe, decide_eq_true_eq] using hab)
    exact hpw2.sublist (List.take_sublist _ _)

/-- **C5, witness.** The claim instantiated on a concrete database. -/
theorem claim_C5_witness :
    project_detail wDB cProj wReqCanon = .ok wDetailOut ∧
    wDetailOut.journal.length ≤ 50 ∧
    (∀ e ∈ wDetailOut.journal, e.name = cProj.name) ∧
    wDetailOut.journal.Pairwise (fun a b => b.submitted_date ≤ a.submitted_date) :=
  ⟨by decide, claim_C5 wDB cProj wReqCanon wDetailOut (by decide)⟩

/-- **C8.** For every canonical request: `releases_list` orders by the
internal release-ordering key descending, `journals_list` by submission date
descending, `project_list` by name ascending, and all three paginate at 25
items per page (the page capacity is 25 and a page holds at most 25 items). -/
theorem claim_C8 (db : DB) (project : Project) (request : Request)
    (outP : ProjectListOut) (outR : ReleasesListOut) (outJ : JournalsListOut) :
    (project_list db request = .ok outP →
       outP.projects.items.Pairwise (fun a b => strLe a.name b.name = true) ∧
       outP.projects.items_per_page = 25 ∧ outP.projects.items.length ≤ 25) ∧
    (releases_list db project request = .ok outR →
       outR.releases.items.Pairwise (fun a b => b._pypi_ordering ≤ a._pypi_ordering) ∧
       outR.releases.items_per_page = 25 ∧ outR.releases.items.length ≤ 25) ∧
    (journals_list db project request = .ok outJ →
       outJ.journals.items.Pairwise (fun a b => b.submitted_date ≤ a.submitted_date) ∧
       outJ.journals.items_per_page = 25 ∧ outJ.journals.items.length ≤ 25) := by
  refine ⟨?_, ?_, ?_⟩
  · intro h
    rcases project_list_ok_inv db request outP h with ⟨pn, -, -, hcase⟩
    have hsorted := pairwise_sortByLe projectNameLe projectNameLe_total projectNameLe_trans
      db.projects
    rcases hcase with ⟨-, hout⟩ | ⟨terms, -, -, hout⟩
    · rw [hout]
      exact ⟨(hsorted.sublist (paginate_items_sublist _ _ _)),
        paginate_items_per_page _ _ _, paginate_length_le _ _ _⟩
    · rw [hout]
      refine ⟨?_, paginate_items_per_page _ _ _, paginate_length_le _ _ _⟩
      by_cases he : terms.isEmpty = true
      · rw [if_pos he]
        exact hsorted.sublist (paginate_items_sublist _ _ _)
      · rw [if_neg he]
        exact hsorted.sublist
          ((paginate_items_sublist _ _ _).trans (List.filter_sublist _))
  · intro h
    rcases releases_list_ok_inv db project request outR h with ⟨-, -, -, pn, -, hcase⟩
    have hsorted := (pairwise_sortByLe releaseOrderGe releaseOrderGe_total releaseOrderGe_trans
      (db.releases.filter (fun r => r.project == project))).imp
      (fun hab => by simpa only [releaseOrderGe, intGe, decide_eq_true_eq] using hab)
    rcases hcase with ⟨-, hout⟩ | ⟨terms, -, -, hout⟩
    · rw [hout]
      exact ⟨hsorted.sublist (paginate_items_sublist _ _ _),
        paginate_items_per_page _ _ _, paginate_length_le _ _ _⟩
    · rw [hout]
      refine ⟨?_, paginate_items_per_page _ _ _, paginate_length_le _ _ _⟩
      by_cases he : (versionFilters terms).isEmpty = true
      · rw [if_pos he]
        exact hsorted.sublist (paginate_items_sublist _ _ _)
      · rw [if_neg he]
        exact hsorted.sublist
          ((paginate_items_sublist _ _ _).trans (List.filter_sublist _))
  · intro h
    rcases journals_list_ok_inv db project request outJ h with ⟨-, -, -, pn, -, hcase⟩
    have hsorted := (pairwise_sortByLe journalDateGe journalDateGe_total journalDateGe_trans
      (db.journals.filter (fun e => e.name == project.name))).imp
      (fun hab => by simpa only [journalDateGe, intGe, decide_eq_true_eq] using hab)
    rcases hcase with ⟨-, hout⟩ | ⟨terms, -, -, hout⟩
    · rw [hout]
      exact ⟨hsorted.sublist (paginate_items_sublist _ _ _),
        paginate_items_per_page _ _ _, paginate_length_le _ _ _⟩
    · rw [hout]
      refine ⟨?_, paginate_items_per_page _ _ _, paginate_length_le _ _ _⟩
      by_cases he : (versionFilters terms).isEmpty = true
      · rw [if_pos he]
        exact hsorted.sublist (paginate_items_sublist _ _ _)
      · rw [if_neg he]
        exact hsorted.sublist
          ((paginate_items_sublist _ _ _).trans (List.filter_sublist _))

/-- **C8, witness.** The claim instantiated on a concrete database. -/
theorem claim_C8_witness :
    releases_list cDB cProj wReqCanon =
      .ok { releases := { items := [cRel], page := 1, items_per_page := 25 },
            project := cProj, query := none } ∧
    ({ items := [cRel], page := 1, items_per_page := 25 } : Page Release).items.Pairwise
      (fun a b => b._pypi_ordering ≤ a._pypi_ordering) ∧
    ({ items := [cRel], page := 1, items_per_page := 25 } : Page Release).items_per_page = 25 ∧
    ({ items := [cRel], page := 1, items_per_page := 25 } : Page Release).items.length ≤ 25 :=
  ⟨by decide,
   (claim_C8 cDB cProj wReqCanon
      { projects := { items := [], page := 1, items_per_page := 25 }, query := none }
      { releases := { items := [cRel], page := 1, items_per_page := 25 },
        project := cProj, query := none }
      { journals := { items := [cJournal], page := 1, items_per_page := 25 },
        project := cProj, query := none }).2.1 (by decide)⟩

/-- **C3.** A request whose path identifier differs from the project's
canonical `normalized_name` makes `project_detail` (and `releases_list` and
`journals_list`) respond with the permanent redirect to the canonical path,
without touching the database (the result is the same for any two sessions);
a canonical identifier never produces a redirect. -/
theorem claim_C3 (db db2 : DB) (project : Project) (request : Request) :
    (request.project_name ≠ project.normalized_name →
       project_detail db project request =
         .error (.movedPermanently (request.current_route_path project.normalized_name)) ∧
       project_detail db project request = project_detail db2 project request ∧
       releases_list db project request =
         .error (.movedPermanently (request.current_route_path project.normalized_name)) ∧
       releases_list db project request = releases_list db2 project request ∧
       journals_list db project request =
         .error (.movedPermanently (request.current_route_path project.normalized_name)) ∧
       journals_list db project request = journals_list db2 project request) ∧
    (request.project_name = project.normalized_name →
       (∀ loc, project_detail db project request ≠ .error (.movedPermanently loc)) ∧
       (∀ loc, releases_list db project request ≠ .error (.movedPermanently loc)) ∧
       (∀ loc, journals_list db project request ≠ .error (.movedPermanently loc))) := by
  constructor
  · intro hne
    refine ⟨project_detail_redirect db project request hne, ?_,
      releases_list_redirect db project request hne, ?_,
      journals_list_redirect db project request hne, ?_⟩
    · rw [project_detail_redirect db project request hne,
        project_detail_redirect db2 project request hne]
    · rw [releases_list_redirect db project request hne,
        releases_list_redirect db2 project request hne]
    · rw [journals_list_redirect db project request hne,
        journals_list_redirect db2 project request hne]
  · intro hcanon
    refine ⟨?_, ?_, ?_⟩
    · intro loc hcontra
      exact (project_detail_error_inv db project request _ hcontra).2 hcanon
    · intro loc hcontra
      rcases releases_list_error_inv db project request _ hcontra with
        ⟨-, hne⟩ | ⟨heq, -⟩ | ⟨m, heq, -, -⟩
      · exact hne hcanon
      · simp at heq
      · simp at heq
    · intro loc hcontra
      rcases journals_list_error_inv db project request _ hcontra with
        ⟨-, hne⟩ | ⟨heq, -⟩ | ⟨m, heq, -, -⟩
      · exact hne hcanon
      · simp at heq
      · simp at heq

/-- **C3, witness.** The claim instantiated: a non-canonical request
redirects, with a database-independent result. -/
theorem claim_C3_witness :
    project_detail cDB cProjMixed cReqBadPageNonCanon =
      .error (.movedPermanently "foobar") ∧
    project_detail cDB cProjMixed cReqBadPageNonCanon =
      project_detail wDB cProjMixed cReqBadPageNonCanon := by
  have h := (claim_C3 cDB wDB cProjMixed cReqBadPageNonCanon).1 (by decide)
  exact ⟨h.1, h.2.1⟩

/-- **C9.** In all three paginated handlers an absent `page` parameter is
treated as page 1 (the result equals that of an explicit `page=1` request)
and never causes a bad-request error. -/
theorem claim_C9 (db : DB) (project : Project) (request : Request)
    (hnone : request.page = none) :
    project_list db request = project_list db { request with page := some "1" } ∧
    (∀ msg, project_list db request ≠ .error (.badRequest msg)) ∧
    releases_list db project request =
      releases_list db project { request with page := some "1" } ∧
    (∀ msg, releases_list db project request ≠ .error (.badRequest msg)) ∧
    journals_list db project request =
      journals_list db project { request with page := some "1" } ∧
    (∀ msg, journals_list db project request ≠ .error (.badRequest msg)) := by
  have h1 : getPageNum request.page = some 1 := by rw [hnone]; rfl
  have h2 : getPageNum (some "1") = some 1 := by decide
  refine ⟨?_, ?_, ?_, ?_, ?_, ?_⟩
  · simp only [project_list, h1, h2]
  · intro msg hcontra
    rcases project_list_error_inv db request _ hcontra with ⟨-, hpage⟩ | ⟨m, heq, -, -⟩
    · rw [h1] at hpage
      simp at hpage
    · simp at heq
  · simp only [releases_list, h1, h2]
  · intro msg hcontra
    rcases releases_list_error_inv db project request _ hcontra with
      ⟨heq, -⟩ | ⟨-, hpage⟩ | ⟨m, heq, -, -⟩
    · simp at heq
    · rw [h1] at hpage
      simp at hpage
    · simp at heq
  · simp only [journals_list, h1, h2]
  · intro msg hcontra
    rcases journals_list_error_inv db project request _ hcontra with
      ⟨heq, -⟩ | ⟨-, hpage⟩ | ⟨m, heq, -, -⟩
    · simp at heq
    · rw [h1] at hpage
      simp at hpage
    · simp at heq

/-- **C9, witness.** The claim instantiated on a concrete database. -/
theorem claim_C9_witness :
    project_list cDB { } = project_list cDB { page := some "1" } ∧
    project_list cDB { } ≠ .error (.badRequest pageErrMsg) := by
  have h := claim_C9 cDB cProj { } rfl
  exact ⟨h.1, h.2.1 pageErrMsg⟩

/-- **C10.** In `releases_list` and `journals_list` the canonical-name check
precedes `page` validation: a non-canonical path with a non-integer `page`
yields the permanent redirect, never the bad-request error. -/
theorem claim_C10 (db : DB) (project : Project) (request : Request) (s : String)
    (hne : request.project_name ≠ project.normalized_name)
    (hs : request.page = some s) (hbad : pyIntParse s = none) :
    releases_list db project request =
      .error (.movedPermanently (request.current_route_path project.normalized_name)) ∧
    (∀ msg, releases_list db project request ≠ .error (.badRequest msg)) ∧
    journals_list db project request =
      .error (.movedPermanently (request.current_route_path project.normalized_name)) ∧
    (∀ msg, journals_list db project request ≠ .error (.badRequest msg)) := by
  refine ⟨releases_list_redirect db project request hne, ?_,
    journals_list_redirect db project request hne, ?_⟩
  · intro msg hcontra
    rw [releases_list_redirect db project request hne] at hcontra
    simp at hcontra
  · intro msg hcontra
    rw [journals_list_redirect db project request hne] at hcontra
    simp at hcontra

/-- **C10, witness.** The claim instantiated: non-canonical path plus
`page=abc` redirects. -/
theorem claim_C10_witness :
    releases_list cDB cProjMixed cReqBadPageNonCanon =
      .error (.movedPermanently "foobar") ∧
    releases_list cDB cProjMixed cReqBadPageNonCanon ≠
      .error (.badRequest pageErrMsg) := by
  have h := claim_C10 cDB cProjMixed cReqBadPageNonCanon "abc" (by decide) rfl (by decide)
  exact ⟨h.1, h.2.1 pageErrMsg⟩

/-- **C2, counterexample.** The claim quantifies over every request to the
three handlers, but in `releases_list` a non-canonical path identifier with
a non-integer `page` yields the redirect, not the bad-request error. -/
theorem claim_C2_counterexample :
    pyIntParse "abc" = none ∧
    releases_list cDB cProjMixed cReqBadPageNonCanon =
      .error (.movedPermanently "foobar") ∧
    releases_list cDB cProjMixed cReqBadPageNonCanon ≠
      .error (.badRequest pageErrMsg) := by
  refine ⟨by decide, by decide, by decide⟩

/-- **C2, amended.** In `project_list` a present non-integer `page` always
yields the bad-request error with the integer-requirement message; in
`releases_list` and `journals_list` the same holds provided the path
identifier is canonical (otherwise the redirect takes precedence); in all
three, a `page` that parses as an integer never yields a bad-request
error. -/
theorem claim_C2_amended (db : DB) (project : Project) (request : Request)
    (s : String) (n : Int) :
    (request.page = some s → pyIntParse s = none →
       project_list db request = .error (.badRequest pageErrMsg)) ∧
    (request.page = some s → pyIntParse s = some n →
       ∀ msg, project_list db request ≠ .error (.badRequest msg)) ∧
    (request.project_name = project.normalized_name → request.page = some s →
       pyIntParse s = none →
       releases_list db project request = .error (.badRequest pageErrMsg)) ∧
    (request.page = some s → pyIntParse s = some n →
       ∀ msg, releases_list db project request ≠ .error (.badRequest msg)) ∧
    (request.project_name = project.normalized_name → request.page = some s →
       pyIntParse s = none →
       journals_list db project request = .error (.badRequest pageErrMsg)) ∧
    (request.page = some s → pyIntParse s = some n →
       ∀ msg, journals_list db project request ≠ .error (.badRequest msg)) := by
  refine ⟨?_, ?_, ?_, ?_, ?_, ?_⟩
  · intro hs hbad
    refine project_list_badRequest db request ?_
    rw [hs]
    simpa only [getPageNum] using hbad
  · intro hs hgood msg hcontra
    rcases project_list_error_inv db request _ hcontra with ⟨-, hpage⟩ | ⟨m, heq, -, -⟩
    · rw [hs] at hpage
      simp only [getPageNum, hgood] at hpage
      exact Option.noConfusion hpage
    · simp at heq
  · intro hcanon hs hbad
    refine releases_list_badRequest db project request hcanon ?_
    rw [hs]
    simpa only [getPageNum] using hbad
  · intro hs hgood msg hcontra
    rcases releases_list_error_inv db project request _ hcontra with
      ⟨heq, -⟩ | ⟨-, hpage⟩ | ⟨m, heq, -, -⟩
    · simp at heq
    · rw [hs] at hpage
      simp only [getPageNum, hgood] at hpage
      exact Option.noConfusion hpage
    · simp at heq
  · intro hcanon hs hbad
    refine journals_list_badRequest db project request hcanon ?_
    rw [hs]
    simpa only [getPageNum] using hbad
  · intro hs hgood msg hcontra
    rcases journals_list_error_inv db project request _ hcontra with
      ⟨heq, -⟩ | ⟨-, hpage⟩ | ⟨m, heq, -, -⟩
    · simp at heq
    · rw [hs] at hpage
      simp only [getPageNum, hgood] at hpage
      exact Option.noConfusion hpage
    · simp at heq

/-- **C2, witness.** The amended claim instantiated: `page=abc` on
`project_list` yields the bad request. -/
theorem claim_C2_witness :
    pyIntParse "abc" = none ∧
    project_list cDB { page := some "abc" } = .error (.badRequest pageErrMsg) :=
  ⟨by decide,
   (claim_C2_amended cDB cProj { page := some "abc" } "abc" 0).1 rfl (by decide)⟩

/-- **C1, counterexample.** The search pattern is passed to `ilike` verbatim,
so `%` and `_` act as `LIKE` wildcards and no wildcards are added around the
term: the query `f%r` returns the project `foobar` even though `f%r` is not
a case-insensitive substring of `foobar` (conversely a plain term such as
`foo` matches only names equal to it, not names merely containing it). -/
theorem claim_C1_counterexample :
    shlexSplit "f%r" = .ok ["f%r"] ∧
    project_list cDB cReqPattern = .ok c1Out ∧
    cProj ∈ c1Out.projects.items ∧
    ciSubstring "f%r" cProj.name = false ∧
    ilike "foobar" "foo" = false ∧ ciSubstring "foo" "foobar" = true := by
  refine ⟨by decide, by decide, by decide, by decide, by decide, by decide⟩

/-- **C1, amended.** For every non-empty query that tokenizes successfully
into at least one term, each term becomes a case-insensitive SQL `LIKE`
pattern match (no implicit surrounding wildcards) against the project name,
terms OR-combined: every project in the result matches at least one term as
a case-insensitive `LIKE` pattern. -/
theorem claim_C1_amended (db : DB) (request : Request) (s : String)
    (terms : List String) (out : ProjectListOut)
    (hq : request.q = some s) (hne : s ≠ "")
    (hterms : shlexSplit s = .ok terms) (hnonempty : terms ≠ [])
    (hok : project_list db request = .ok out) :
    ∀ p ∈ out.projects.items, terms.any (fun term => ilike p.name term) = true := by
  rcases project_list_ok_inv db request out hok with ⟨pn, -, -, hcase⟩
  rcases hcase with ⟨hqf, -⟩ | ⟨terms2, -, hterms2, hout⟩
  · rw [hq] at hqf
    simp only [qTruthy, decide_eq_false_iff_not, Decidable.not_not] at hqf
    exact absurd hqf hne
  · rw [hq, Option.getD_some, hterms] at hterms2
    injection hterms2 with hterms2
    subst hterms2
    have hne2 : ¬ (terms.isEmpty = true) := by
      simpa only [List.isEmpty_iff] using hnonempty
    rw [hout, if_neg hne2]
    intro p hp
    exact (List.mem_filter.mp (paginate_items_subset _ _ _ p hp)).2

/-- **C1, witness.** The amended claim instantiated on the pattern query. -/
theorem claim_C1_witness :
    cProj ∈ c1Out.projects.items ∧
    (["f%r"].any (fun term => ilike cProj.name term)) = true :=
  ⟨by decide,
   claim_C1_amended cDB cReqPattern "f%r" ["f%r"] c1Out rfl (by decide) (by decide)
     (by decide) (by decide) cProj (by decide)⟩

/-- `split(":", 1)` on `field ++ ":" ++ value` recovers the pieces when the
field holds no colon. -/
theorem splitOnce_append (f v : List Char) (hf : ¬ ':' ∈ f) :
    splitOnce ':' (f ++ ':' :: v) = (f, v) := by
  induction f with
  | nil => simp [splitOnce]
  | cons c cs ih =>
    have hc : ¬ c = ':' := fun h => hf (h ▸ List.mem_cons_self c cs)
    have hcs : ¬ ':' ∈ cs := fun h => hf (List.mem_cons_of_mem c h)
    simp only [List.cons_append, splitOnce, if_neg hc, List.append_eq, ih hcs]

/-- **C6, counterexample.** A `version:value` term is passed to `ilike`
verbatim, a `LIKE` pattern match rather than a substring match: searching
`version:1.0` misses the release `1.0.2` although `1.0` is a
case-insensitive substring of its version. -/
theorem claim_C6_counterexample :
    shlexSplit "version:1.0" = .ok ["version:1.0"] ∧
    versionFilters ["version:1.0"] = ["1.0"] ∧
    cRel ∈ cDB.releases ∧ cRel.project = cProj ∧
    ciSubstring "1.0" cRel.version = true ∧
    releases_list cDB cProj cReqVersion =
      .ok { releases := { items := [], page := 1, items_per_page := 25 },
            project := cProj, query := some "version:1.0" } := by
  refine ⟨by decide, by decide, by decide, by decide, by decide, by decide⟩

/-- **C6, amended.** In `releases_list` (and `journals_list`), a term
lacking a `:` or whose field key does not lower to `version` contributes no
filter; a `version:value` term contributes the value as a case-insensitive
`LIKE` pattern match (no implicit surrounding wildcards) on the version:
when the collected filters are non-empty, every returned row's version
matches at least one of them under `ilike`. -/
theorem claim_C6_amended :
    (∀ t ts, (¬ ':' ∈ t.data ∨ lowerChars (splitOnce ':' t.data).1 ≠ "version".data) →
       versionFilters (t :: ts) = versionFilters ts) ∧
    (∀ f v ts, ¬ ':' ∈ f → lowerChars f = "version".data →
       versionFilters (String.mk (f ++ ':' :: v) :: ts) =
         String.mk v :: versionFilters ts) ∧
    (∀ db project request s terms out, request.q = some s →
       shlexSplit s = .ok terms → versionFilters terms ≠ [] →
       releases_list db project request = .ok out →
       ∀ r ∈ out.releases.items,
         (versionFilters terms).any (fun v => ilike r.version v) = true) ∧
    (∀ db project request s terms out, request.q = some s →
       shlexSplit s = .ok terms → versionFilters terms ≠ [] →
       journals_list db project request = .ok out →
       ∀ e ∈ out.journals.items,
         (versionFilters terms).any (fun v => ilike e.version v) = true) := by
  refine ⟨?_, ?_, ?_, ?_⟩
  · intro t ts hcond
    rcases hcond with hc | hfield
    · simp only [versionFilters, List.filterMap_cons, if_neg hc]
    · by_cases hc2 : ':' ∈ t.data
      · simp only [versionFilters, List.filterMap_cons, if_pos hc2, if_neg hfield]
      · simp only [versionFilters, List.filterMap_cons, if_neg hc2]
  · intro f v ts hf hlow
    have hmem : ':' ∈ (String.mk (f ++ ':' :: v)).data :=
      List.mem_append_right f (List.mem_cons_self ':' v)
    have hsplit : splitOnce ':' (String.mk (f ++ ':' :: v)).data = (f, v) :=
      splitOnce_append f v hf
    simp only [versionFilters, List.filterMap_cons, if_pos hmem, hsplit, hlow]
    simp
  · intro db project request s terms out hq hterms hfne hok
    rcases releases_list_ok_inv db project request out hok with ⟨-, -, -, pn, -, hcase⟩
    rcases hcase with ⟨hqf, -⟩ | ⟨terms2, -, hterms2, hout⟩
    · rw [hq] at hqf
      simp only [qTruthy, decide_eq_false_iff_not, Decidable.not_not] at hqf
      rw [hqf] at hterms
      have : versionFilters terms = [] := by
        have hempty : shlexSplit "" = .ok [] := by decide
        rw [hempty] at hterms
        injection hterms with hterms
        rw [← hterms]
        rfl
      exact absurd this hfne
    · rw [hq, Option.getD_some, hterms] at hterms2
      injection hterms2 with hterms2
      subst hterms2
      have hne2 : ¬ ((versionFilters terms).isEmpty = true) := by
        simpa only [List.isEmpty_iff] using hfne
      rw [hout, if_neg hne2]
      intro r hr
      exact (List.mem_filter.mp (paginate_items_subset _ _ _ r hr)).2
  · intro db project request s terms out hq hterms hfne hok
    rcases journals_list_ok_inv db project request out hok with ⟨-, -, -, pn, -, hcase⟩
    rcases hcase with ⟨hqf, -⟩ | ⟨terms2, -, hterms2, hout⟩
    · rw [hq] at hqf
      simp only [qTruthy, decide_eq_false_iff_not, Decidable.not_not] at hqf
      rw [hqf] at hterms
      have : versionFilters terms = [] := by
        have hempty : shlexSplit "" = .ok [] := by decide
        rw [hempty] at hterms
        injection hterms with hterms
        rw [← hterms]
        rfl
      exact absurd this hfne
    · rw [hq, Option.getD_some, hterms] at hterms2
      injection hterms2 with hterms2
      subst hterms2
      have hne2 : ¬ ((versionFilters terms).isEmpty = true) := by
        simpa only [List.isEmpty_iff] using hfne
      rw [hout, if_neg hne2]
      intro e he
      exact (List.mem_filter.mp (paginate_items_subset _ _ _ e he)).2

/-- **C6, witness.** The amended claim instantiated: a field-less term
contributes nothing, and an exact `version:` value is matched by `ilike`. -/
theorem claim_C6_witness :
    versionFilters ["junk"] = versionFilters [] ∧
    (versionFilters ["version:1.0.2"]).any (fun v => ilike cRel.version v) = true :=
  ⟨claim_C6_amended.1 "junk" [] (Or.inl (by decide)),
   claim_C6_amended.2.2.1 cDB cProj cReqVersionExact "version:1.0.2" ["version:1.0.2"]
     c6Out rfl (by decide) (by decide) (by decide) cRel (by decide)⟩

/-- **C7, counterexample.** A query consisting of one unbalanced double
quote makes `shlex.split` raise an uncaught `ValueError`: the request fails
with an error that is neither the bad-request response nor the redirect, so
not every free-text query degrades gracefully. -/
theorem claim_C7_counterexample :
    shlexSplit "\"" = .error "No closing quotation" ∧
    project_list cDB cReqQuote = .error (.valueError "No closing quotation") ∧
    project_list cDB cReqQuote ≠ .error (.badRequest pageErrMsg) ∧
    project_list cDB cReqQuote ≠ .error (.movedPermanently "foobar") := by
  refine ⟨by decide, by decide, by decide, by decide⟩

/-- **C7, amended.** Across the four handlers the surfaced error conditions
are: a malformed `page` parameter (bad request), a non-canonical project
path (permanent redirect), and a query string that fails shell
tokenization (uncaught `ValueError` from `shlex.split`, e.g. an unbalanced
quote or trailing escape).  Every other input yields a result. -/
theorem claim_C7_amended (db : DB) (project : Project) (request : Request)
    (e : HandlerError) :
    (project_list db request = .error e →
       (e = .badRequest pageErrMsg ∧ getPageNum request.page = none) ∨
       (∃ m, e = .valueError m ∧ qTruthy request.q = true ∧
         shlexSplit (request.q.getD "") = .error m)) ∧
    (project_detail db project request = .error e →
       e = .movedPermanently (request.current_route_path project.normalized_name) ∧
       request.project_name ≠ project.normalized_name) ∧
    (releases_list db project request = .error e →
       (e = .movedPermanently (request.current_route_path project.normalized_name) ∧
          request.project_name ≠ project.normalized_name) ∨
       (e = .badRequest pageErrMsg ∧ getPageNum request.page = none) ∨
       (∃ m, e = .valueError m ∧ qTruthy request.q = true ∧
         shlexSplit (request.q.getD "") = .error m)) ∧
    (journals_list db project request = .error e →
       (e = .movedPermanently (request.current_route_path project.normalized_name) ∧
          request.project_name ≠ project.normalized_name) ∨
       (e = .badRequest pageErrMsg ∧ getPageNum request.page = none) ∨
       (∃ m, e = .valueError m ∧ qTruthy request.q = true ∧
         shlexSplit (request.q.getD "") = .error m)) :=
  ⟨project_list_error_inv db request e,
   project_detail_error_inv db project request e,
   releases_list_error_inv db project request e,
   journals_list_error_inv db project request e⟩

/-- **C7, witness.** The amended claim instantiated on the unbalanced-quote
query: the error is the tokenization `ValueError`. -/
theorem claim_C7_witness :
    (HandlerError.valueError "No closing quotation" = .badRequest pageErrMsg ∧
       getPageNum cReqQuote.page = none) ∨
    (∃ m, HandlerError.valueError "No closing quotation" = .valueError m ∧
       qTruthy cReqQuote.q = true ∧
       shlexSplit (cReqQuote.q.getD "") = .error m) :=
  (claim_C7_amended cDB cProj cReqQuote (.valueError "No closing quotation")).1 (by decide)
